import Mathlib

/-!
Verification development for the Selly win-audio-capture sidecar.

The Rust sources embedded here:
- `src/node_modules/selly-agent/native/win-audio-capture/src/main.rs`
  (mixing loop, clamp-and-scale conversion, WAV/stdout fan-out,
  `write_pcm_frame` wire serializer, sequence-number handling);
- `src/apps/agent/native/win-audio-capture/src/wasapi_loopback.rs`
  (WASAPI loopback capture: silence handling, mono reduction,
  start/join error flow).

Machine integers are modelled as `Nat`/`Int` with explicit `% 2^w` at the
points where the Rust code has a fixed-width type or an `as` cast.
`f32` values are modelled by the type `F32` below: a rational for finite
values plus explicit NaN/±infinity constructors, with the Rust semantics
of `clamp` and float-to-int `as` casts (truncation toward zero,
saturation, NaN to 0) spelled out.  Rational arithmetic is exact where
the actual floats of the claims are exactly representable.
-/

namespace Selly

/-! ## Byte-level wire format (`write_pcm_frame`, main.rs lines 273-294) -/

/-- Little-endian bytes of a `u32` value (`u32::to_le_bytes`). -/
def u32ToLe (n : Nat) : List Nat :=
  [n % 256, n / 256 % 256, n / 256 ^ 2 % 256, n / 256 ^ 3 % 256]

/-- Little-endian bytes of an `i16` value (`i16::to_le_bytes`): the
two's-complement 16-bit image of `s`, split into two bytes. -/
def i16ToLe (s : Int) : List Nat :=
  [(s % 65536).toNat % 256, (s % 65536).toNat / 256]

/-- The 4-byte magic marker `b"SELL"`. -/
def magicBytes : List Nat := [0x53, 0x45, 0x4C, 0x4C]

/-- Decode a little-endian byte list back to a natural number. -/
def leDecode (bs : List Nat) : Nat :=
  bs.foldr (fun b acc => b + 256 * acc) 0

/-- Embedding of `write_pcm_frame` (main.rs lines 273-294): magic bytes,
then the sequence number as `u32` little-endian, then
`(samples.len() * 2) as u32` little-endian, then each sample as `i16`
little-endian.  `seq` is a `u32` in the source, hence the `% 2^32`;
the `usize -> u32` cast on the length is the second `% 2^32`. -/
def write_pcm_frame (samples : List Int) (seq : Nat) : List Nat :=
  magicBytes ++ u32ToLe (seq % 2 ^ 32) ++ u32ToLe (samples.length * 2 % 2 ^ 32)
    ++ (samples.map i16ToLe).flatten

theorem leDecode_u32ToLe (n : Nat) (h : n < 2 ^ 32) : leDecode (u32ToLe n) = n := by
  simp only [u32ToLe, leDecode, List.foldr]
  omega

theorem i16ToLe_length (s : Int) : (i16ToLe s).length = 2 := rfl

theorem flatten_map_i16ToLe_length (samples : List Int) :
    ((samples.map i16ToLe).flatten).length = 2 * samples.length := by
  induction samples with
  | nil => rfl
  | cons s rest ih =>
      simp only [List.map_cons, List.flatten_cons, List.length_append, ih,
        i16ToLe_length, List.length_cons]
      omega

/-! ## Model of `f32` values and the Rust clamp-and-scale conversion
(main.rs lines 209-210) -/

/-- Model of an `f32` value: NaN, the two infinities, or a finite value
modelled as a rational (exact where the floats of the claims are exactly
representable). -/
inductive F32 where
  | nan
  | inf
  | ninf
  | fin (q : ℚ)
deriving DecidableEq

/-- Rust `f32::clamp(self, -1.0, 1.0)`: values below -1 become -1, values
above 1 become 1, NaN stays NaN. -/
def clampUnit : F32 → F32
  | .nan => .nan
  | .inf => .fin 1
  | .ninf => .fin (-1)
  | .fin q => .fin (max (-1) (min 1 q))

/-- Multiplication by `i16::MAX as f32 = 32767.0`. -/
def scaleI16Max : F32 → F32
  | .nan => .nan
  | .inf => .inf
  | .ninf => .ninf
  | .fin q => .fin (q * 32767)

/-- Truncation of a rational toward zero, the rounding used by Rust's
float-to-integer `as` casts. -/
def truncQ (q : ℚ) : Int := q.num.tdiv q.den

/-- Rust `as i16` on an `f32`: NaN maps to 0, the result saturates at the
`i16` bounds, and finite values are truncated toward zero. -/
def castI16 : F32 → Int
  | .nan => 0
  | .inf => 32767
  | .ninf => -32768
  | .fin q => max (-32768) (min 32767 (truncQ q))

/-- Embedding of `(sample.clamp(-1.0, 1.0) * i16::MAX as f32) as i16`
(main.rs lines 209-210). -/
def sampleToI16 (s : F32) : Int := castI16 (scaleI16Max (clampUnit s))

theorem truncQ_of_nonneg (q : ℚ) (h : 0 ≤ q) : truncQ q = ⌊q⌋ := by
  rw [truncQ, Rat.floor_def, Int.tdiv_eq_ediv (Rat.num_nonneg.mpr h) (Int.natCast_nonneg _)]

theorem truncQ_of_nonpos (q : ℚ) (h : q ≤ 0) : truncQ q = ⌈q⌉ := by
  have hnum : 0 ≤ -q.num := by
    have := Rat.num_nonpos.mpr h
    omega
  show q.num.tdiv q.den = ⌈q⌉
  rw [← neg_neg q.num, Int.neg_tdiv, Int.tdiv_eq_ediv hnum (Int.natCast_nonneg _)]
  have hfl : (-q.num) / (q.den : ℤ) = ⌊-q⌋ := by
    rw [Rat.floor_def, Rat.neg_num, Rat.neg_den]
  rw [hfl, Int.floor_neg, neg_neg]

theorem truncQ_le {q : ℚ} {n : ℤ} (hn : 0 ≤ n) (h : q ≤ (n : ℚ)) : truncQ q ≤ n := by
  rcases le_or_lt 0 q with hq | hq
  · rw [truncQ_of_nonneg q hq]
    calc ⌊q⌋ ≤ ⌊(n : ℚ)⌋ := Int.floor_le_floor h
    _ = n := Int.floor_intCast n
  · rw [truncQ_of_nonpos q hq.le]
    exact le_trans (Int.ceil_le.mpr (by exact_mod_cast hq.le)) hn

theorem le_truncQ {q : ℚ} {n : ℤ} (hn : n ≤ 0) (h : (n : ℚ) ≤ q) : n ≤ truncQ q := by
  rcases le_or_lt 0 q with hq | hq
  · rw [truncQ_of_nonneg q hq]
    exact le_trans hn (Int.le_floor.mpr (by exact_mod_cast hq))
  · rw [truncQ_of_nonpos q hq.le]
    calc n = ⌈(n : ℚ)⌉ := (Int.ceil_intCast n).symm
    _ ≤ ⌈q⌉ := Int.ceil_le_ceil h

theorem clampUnit_bounds (s : F32) :
    clampUnit s = F32.nan ∨ ∃ q, clampUnit s = F32.fin q ∧ -1 ≤ q ∧ q ≤ 1 := by
  cases s with
  | nan => exact Or.inl rfl
  | inf => exact Or.inr ⟨1, rfl, by norm_num, le_refl 1⟩
  | ninf => exact Or.inr ⟨-1, rfl, le_refl (-1), by norm_num⟩
  | fin q =>
      refine Or.inr ⟨max (-1) (min 1 q), rfl, le_max_left _ _, ?_⟩
      exact max_le (by norm_num) (min_le_left _ _)

theorem sampleToI16_bounds (s : F32) :
    -32767 ≤ sampleToI16 s ∧ sampleToI16 s ≤ 32767 := by
  rcases clampUnit_bounds s with hc | ⟨q, hc, hq1, hq2⟩
  · rw [sampleToI16, hc]
    norm_num [scaleI16Max, castI16]
  · rw [sampleToI16, hc]
    show -32767 ≤ castI16 (F32.fin (q * 32767)) ∧ castI16 (F32.fin (q * 32767)) ≤ 32767
    have hub : q * 32767 ≤ ((32767 : ℤ) : ℚ) := by
      push_cast
      nlinarith
    have hlb : (((-32767) : ℤ) : ℚ) ≤ q * 32767 := by
      push_cast
      nlinarith
    have ht1 : truncQ (q * 32767) ≤ 32767 := truncQ_le (by norm_num) hub
    have ht2 : -32767 ≤ truncQ (q * 32767) := le_truncQ (by norm_num) hlb
    constructor
    · show -32767 ≤ max (-32768) (min 32767 (truncQ (q * 32767)))
      rcases le_total 32767 (truncQ (q * 32767)) with h | h
      · rw [min_eq_left h]
        omega
      · rw [min_eq_right h]
        omega
    · show max (-32768) (min 32767 (truncQ (q * 32767))) ≤ 32767
      rcases le_total 32767 (truncQ (q * 32767)) with h | h
      · rw [min_eq_left h]
        omega
      · rw [min_eq_right h]
        omega

theorem truncQ_pos_eval (q : ℚ) (z : ℤ) (h0 : 0 ≤ q) (h1 : (z : ℚ) ≤ q)
    (h2 : q < z + 1) : truncQ q = z := by
  rw [truncQ_of_nonneg q h0]
  exact Int.floor_eq_iff.mpr ⟨h1, by exact_mod_cast h2⟩

theorem truncQ_neg_eval (q : ℚ) (z : ℤ) (h0 : q ≤ 0) (h1 : (z : ℚ) - 1 < q)
    (h2 : q ≤ z) : truncQ q = z := by
  rw [truncQ_of_nonpos q h0]
  exact Int.ceil_eq_iff.mpr ⟨by exact_mod_cast h1, h2⟩

theorem sampleToI16_half : sampleToI16 (F32.fin (1 / 2)) = 16383 := by
  have hc : clampUnit (F32.fin (1 / 2)) = F32.fin (1 / 2) := by
    simp only [clampUnit]
    norm_num [min_def, max_def]
  have ht : truncQ ((1 : ℚ) / 2 * 32767) = 16383 := by
    apply truncQ_pos_eval
    · norm_num
    · norm_num
    · norm_num
  rw [sampleToI16, hc]
  show max (-32768) (min 32767 (truncQ ((1 : ℚ) / 2 * 32767))) = 16383
  rw [ht]
  decide

theorem sampleToI16_neg_half : sampleToI16 (F32.fin (-(1 / 2))) = -16383 := by
  have hc : clampUnit (F32.fin (-(1 / 2))) = F32.fin (-(1 / 2)) := by
    simp only [clampUnit]
    norm_num [min_def, max_def]
  have ht : truncQ (-((1 : ℚ) / 2) * 32767) = -16383 := by
    apply truncQ_neg_eval
    · norm_num
    · norm_num
    · norm_num
  rw [sampleToI16, hc]
  show max (-32768) (min 32767 (truncQ (-((1 : ℚ) / 2) * 32767))) = -16383
  rw [ht]
  decide

theorem sampleToI16_zero : sampleToI16 (F32.fin 0) = 0 := by
  have hc : clampUnit (F32.fin 0) = F32.fin 0 := by
    simp only [clampUnit]
    norm_num [min_def, max_def]
  have ht : truncQ ((0 : ℚ) * 32767) = 0 := by
    apply truncQ_pos_eval
    · norm_num
    · norm_num
    · norm_num
  rw [sampleToI16, hc]
  show max (-32768) (min 32767 (truncQ ((0 : ℚ) * 32767))) = 0
  rw [ht]
  decide

/-! ## Mixing loop (main.rs lines 196-219): hold-last-value channel reads
and the per-iteration stereo frame -/

/-- State of the mixing loop across iterations: the `last_mic_sample` and
`last_loopback_sample` variables of main.rs lines 197-198. -/
structure MixState where
  lastMic : F32
  lastLoop : F32
deriving DecidableEq

/-- Initial mixing-loop state: both hold-last values start at `0.0`
(main.rs lines 197-198). -/
def initMixState : MixState := ⟨F32.fin 0, F32.fin 0⟩

/-- One iteration of the mixing loop body (main.rs lines 200-219): a
non-blocking `try_recv` on each channel falls back to the held sample
(`unwrap_or`), the held samples are updated to the values used, and both
are converted to `i16` for the stereo frame. -/
def mixIter (st : MixState) (micRecv loopRecv : Option F32) :
    MixState × Int × Int :=
  let micSample := micRecv.getD st.lastMic
  let loopSample := loopRecv.getD st.lastLoop
  (⟨micSample, loopSample⟩, sampleToI16 micSample, sampleToI16 loopSample)

/-- Run the mixing loop over a list of per-iteration channel read results,
collecting the emitted stereo `i16` frames in order. -/
def runMix (st : MixState) : List (Option F32 × Option F32) → List (Int × Int)
  | [] => []
  | (mr, lr) :: rest =>
      (mixIter st mr lr).2 :: runMix (mixIter st mr lr).1 rest

/-- Scenario of claim C3: across 4 iterations the mic channel delivers the
repeating sequence 0.5, -0.5 and the loopback channel delivers zeros. -/
def c3Scenario : List (Option F32 × Option F32) :=
  [(some (F32.fin (1 / 2)), some (F32.fin 0)),
   (some (F32.fin (-(1 / 2))), some (F32.fin 0)),
   (some (F32.fin (1 / 2)), some (F32.fin 0)),
   (some (F32.fin (-(1 / 2))), some (F32.fin 0))]

theorem c3_run_eval : runMix initMixState c3Scenario
    = [(16383, 0), (-16383, 0), (16383, 0), (-16383, 0)] := by
  simp only [c3Scenario, runMix, mixIter, Option.getD_some]
  rw [sampleToI16_half, sampleToI16_neg_half, sampleToI16_zero]

/-! ## Sequence numbering of the framed stream (main.rs lines 185, 222-234
and the final flush at lines 243-247) -/

/-- Wraparound of a `u32` counter (`u32::wrapping_add`). -/
def wrap32 (n : Nat) : Nat := n % 2 ^ 32

/-- Result of one `write_pcm_frame` call as seen by the mixing loop's
`match` (main.rs lines 223-233). -/
inductive WriteOutcome where
  | ok
  | err
deriving DecidableEq

/-- Sequence-number state of the framed stream: the `sequence_number`
variable plus the history of sequence numbers carried by successfully
emitted frames. -/
structure StreamState where
  seq : Nat
  emitted : List Nat
deriving DecidableEq

/-- Initial framed-stream state: `sequence_number = 0`, nothing emitted
(main.rs line 185). -/
def initStream : StreamState := ⟨0, []⟩

/-- One flush attempt (main.rs lines 223-233): on success the frame goes
out carrying the current sequence number and the counter is
`wrapping_add(1)`-ed; on failure the buffer is discarded and the counter
is left unchanged. -/
def flushStep (st : StreamState) : WriteOutcome → StreamState
  | .ok => ⟨wrap32 (st.seq + 1), st.emitted ++ [st.seq]⟩
  | .err => ⟨st.seq, st.emitted⟩

/-- Fold a session's flush attempts over the stream state. -/
def runStream (st : StreamState) (ws : List WriteOutcome) : StreamState :=
  ws.foldl flushStep st

/-- Number of successful flushes in a session. -/
def okCount : List WriteOutcome → Nat
  | [] => 0
  | .ok :: ws => okCount ws + 1
  | .err :: ws => okCount ws

theorem wrap32_lt (n : Nat) : wrap32 n < 2 ^ 32 := Nat.mod_lt _ (by norm_num)

theorem runStream_spec (ws : List WriteOutcome) (st : StreamState)
    (hseq : st.seq < 2 ^ 32) :
    (runStream st ws).emitted
        = st.emitted ++ (List.range (okCount ws)).map (fun i => wrap32 (st.seq + i)) ∧
    (runStream st ws).seq = wrap32 (st.seq + okCount ws) := by
  induction ws generalizing st with
  | nil =>
      constructor
      · simp [runStream, okCount]
      · simp only [runStream, List.foldl_nil, okCount, Nat.add_zero, wrap32]
        omega
  | cons w ws ih =>
      cases w with
      | ok =>
          have hstep : runStream st (.ok :: ws)
              = runStream ⟨wrap32 (st.seq + 1), st.emitted ++ [st.seq]⟩ ws := rfl
          obtain ⟨h1, h2⟩ := ih ⟨wrap32 (st.seq + 1), st.emitted ++ [st.seq]⟩ (wrap32_lt _)
          have hfun : (fun i => wrap32 (wrap32 (st.seq + 1) + i))
              = fun i => wrap32 (st.seq + (i + 1)) := by
            funext i
            show (((st.seq + 1) % 2 ^ 32) + i) % 2 ^ 32 = (st.seq + (i + 1)) % 2 ^ 32
            conv_rhs => rw [show st.seq + (i + 1) = st.seq + 1 + i by ring]
            exact Nat.mod_add_mod _ _ _
          constructor
          · rw [hstep, h1, hfun]
            rw [show okCount (.ok :: ws) = okCount ws + 1 from rfl]
            rw [List.range_succ_eq_map, List.map_cons, List.map_map]
            simp only [List.append_assoc, List.singleton_append, Function.comp]
            rw [show wrap32 (st.seq + 0) = st.seq by unfold wrap32; omega]
            rfl
          · rw [hstep, h2]
            show (((st.seq + 1) % 2 ^ 32) + okCount ws) % 2 ^ 32
                = (st.seq + okCount (.ok :: ws)) % 2 ^ 32
            rw [Nat.mod_add_mod]
            rw [show okCount (.ok :: ws) = okCount ws + 1 from rfl]
            congr 1
            ring
      | err =>
          have hstep : runStream st (.err :: ws) = runStream ⟨st.seq, st.emitted⟩ ws := rfl
          obtain ⟨h1, h2⟩ := ih ⟨st.seq, st.emitted⟩ hseq
          exact ⟨by rw [hstep, h1]; rfl, by rw [hstep, h2]; rfl⟩

/-! ## Loopback mono conversion (wasapi_loopback.rs lines 154-158 and
184-226) -/

/-- Model of Rust's slice `chunks(n)`: successive sub-lists of length `n`
(the last one possibly shorter).  `n = 0` panics in Rust and never occurs
in the source (the channel count is at least 1); it is mapped to `[]`. -/
def chunksR {α : Type} (n : Nat) : List α → List (List α)
  | [] => []
  | x :: xs =>
      if n = 0 then []
      else (x :: xs).take n :: chunksR n ((x :: xs).drop n)
termination_by l => l.length
decreasing_by
  simp only [List.length_drop, List.length_cons]
  omega

/-- Embedding of the 16-bit arm of `process_buffer` (wasapi_loopback.rs
lines 192-205): each frame's samples are normalized by `i16::MAX`, summed,
and divided by the channel count. -/
def processBuffer16 (nch : Nat) (samples : List Int) : List ℚ :=
  (chunksR nch samples).map (fun c => (c.map (fun s => (s : ℚ) / 32767)).sum / (nch : ℚ))

/-- Embedding of the 32-bit float arm of `process_buffer`
(wasapi_loopback.rs lines 206-217): each frame's samples pass through
unscaled, summed and divided by the channel count. -/
def processBuffer32 (nch : Nat) (samples : List ℚ) : List ℚ :=
  (chunksR nch samples).map (fun c => c.sum / (nch : ℚ))

/-- Embedding of the silence branch (wasapi_loopback.rs lines 154-158):
one zero sample is sent per frame of a silence-flagged buffer. -/
def silentEmit (n : Nat) : List ℚ := List.replicate n 0

theorem chunksR_flatten {α : Type} (nch : Nat) (hn : 0 < nch)
    (frames : List (List α)) (hf : ∀ f ∈ frames, f.length = nch) :
    chunksR nch frames.flatten = frames := by
  induction frames with
  | nil => simp [chunksR]
  | cons f fs ih =>
      have hflen : f.length = nch := hf f (List.mem_cons_self f fs)
      obtain ⟨y, ys, rfl⟩ : ∃ y ys, f = y :: ys := by
        cases f with
        | nil => simp at hflen; omega
        | cons y ys => exact ⟨y, ys, rfl⟩
      have hflat : ((y :: ys) :: fs).flatten = y :: (ys ++ fs.flatten) := rfl
      rw [hflat, chunksR]
      rw [if_neg (Nat.pos_iff_ne_zero.mp hn)]
      rw [show y :: (ys ++ fs.flatten) = (y :: ys) ++ fs.flatten from rfl]
      rw [List.take_left' hflen, List.drop_left' hflen]
      rw [ih (fun g hg => hf g (List.mem_cons_of_mem _ hg))]

/-! ## Loopback start/join error flow (wasapi_loopback.rs lines 33-53 and
55-111; main.rs lines 144-159 and 252-257) -/

/-- Outcome of each fallible WASAPI acquisition stage performed inside the
capture thread (wasapi_loopback.rs lines 56-111). -/
structure CaptureEnv where
  enumeratorOk : Bool
  endpointOk : Bool
  activateOk : Bool
  mixFormatOk : Bool
  initOk : Bool
deriving DecidableEq

/-- Embedding of the acquisition prefix of `capture_audio`
(wasapi_loopback.rs lines 55-111): the stages run in order and the first
failing stage aborts the thread with its `context` message. -/
def capture_audio (env : CaptureEnv) : Except String Unit :=
  if !env.enumeratorOk then .error "Failed to create device enumerator"
  else if !env.endpointOk then .error "Failed to get default audio endpoint"
  else if !env.activateOk then .error "Failed to activate audio client"
  else if !env.mixFormatOk then .error "Failed to get mix format"
  else if !env.initOk then .error "Failed to initialize audio client"
  else .ok ()

/-- Embedding of `run_capture_loop` (wasapi_loopback.rs lines 40-53): COM
init/teardown around `capture_audio`, returning its result. -/
def run_capture_loop (env : CaptureEnv) : Except String Unit := capture_audio env

/-- Embedding of `WasapiLoopbackCapture::start` (wasapi_loopback.rs lines
33-38): it spawns the capture thread and returns `Ok(handle)`
unconditionally; the returned handle is what `join` later yields the
thread result from. -/
def start (env : CaptureEnv) : Except String CaptureEnv := Except.ok env

/-- What `handle.join()` can report in main.rs lines 253-257: either the
thread panicked, or it finished with the `Result` returned by
`run_capture_loop`. -/
inductive JoinOutcome where
  | panicked (msg : String)
  | finished (r : Except String Unit)

/-- Embedding of the join handling in main.rs lines 253-257: only a panic
(`handle.join()` returning `Err`) produces a log line; a thread that
finished with `Err(e)` from `run_capture_loop` produces none, because the
`Result` inside `Ok` is discarded. -/
def joinLogLines : JoinOutcome → List String
  | .panicked m => ["[win-audio-capture] Warning: Loopback thread panicked: " ++ m]
  | .finished _ => []

/-- Environment in which acquiring the default output endpoint fails. -/
def envNoEndpoint : CaptureEnv := ⟨true, false, true, true, true⟩

/-! ## Claim theorems -/

/-- Decode two little-endian bytes as a signed 16-bit integer (the reading
a downstream consumer of the framed stream applies to payload bytes). -/
def decodeI16 (bs : List Nat) : Int :=
  if leDecode bs < 32768 then (leDecode bs : Int) else (leDecode bs : Int) - 65536

theorem decodeI16_i16ToLe (s : Int) (h1 : -32768 ≤ s) (h2 : s < 32768) :
    decodeI16 (i16ToLe s) = s := by
  simp only [i16ToLe, decodeI16, leDecode, List.foldr]
  omega

/-- C1: every `write_pcm_frame` call writes, in order, the 4-byte magic
marker "SELL", the 4-byte little-endian sequence number, a 4-byte
little-endian payload length equal to 2 x (number of i16 samples), and
exactly that many payload bytes, each sample encoded as a 2-byte
little-endian signed integer in list order. -/
theorem write_pcm_frame_layout (samples : List Int) (seq : Nat)
    (hseq : seq < 2 ^ 32) (hlen : samples.length * 2 < 2 ^ 32)
    (hs : ∀ s ∈ samples, -32768 ≤ s ∧ s < 32768) :
    (write_pcm_frame samples seq).take 4 = magicBytes ∧
    leDecode (((write_pcm_frame samples seq).drop 4).take 4) = seq ∧
    leDecode (((write_pcm_frame samples seq).drop 8).take 4) = samples.length * 2 ∧
    ((write_pcm_frame samples seq).drop 12).length = samples.length * 2 ∧
    (write_pcm_frame samples seq).drop 12 = (samples.map i16ToLe).flatten ∧
    ∀ s ∈ samples, (i16ToLe s).length = 2 ∧ decodeI16 (i16ToLe s) = s := by
  have hm : magicBytes.length = 4 := rfl
  have ha : (u32ToLe (seq % 2 ^ 32)).length = 4 := rfl
  have hb : (u32ToLe (samples.length * 2 % 2 ^ 32)).length = 4 := rfl
  have hseq' : seq % 2 ^ 32 = seq := Nat.mod_eq_of_lt hseq
  have hlen' : samples.length * 2 % 2 ^ 32 = samples.length * 2 := Nat.mod_eq_of_lt hlen
  have hW : write_pcm_frame samples seq
      = magicBytes ++ (u32ToLe (seq % 2 ^ 32)
          ++ (u32ToLe (samples.length * 2 % 2 ^ 32) ++ (samples.map i16ToLe).flatten)) := by
    simp [write_pcm_frame, List.append_assoc]
  have hd4 : (write_pcm_frame samples seq).drop 4
      = u32ToLe (seq % 2 ^ 32)
          ++ (u32ToLe (samples.length * 2 % 2 ^ 32) ++ (samples.map i16ToLe).flatten) := by
    rw [hW, List.drop_left' hm]
  have hd8 : (write_pcm_frame samples seq).drop 8
      = u32ToLe (samples.length * 2 % 2 ^ 32) ++ (samples.map i16ToLe).flatten := by
    rw [show (8 : ℕ) = 4 + 4 from rfl, ← List.drop_drop, hd4, List.drop_left' ha]
  have hd12 : (write_pcm_frame samples seq).drop 12 = (samples.map i16ToLe).flatten := by
    rw [show (12 : ℕ) = 8 + 4 from rfl, ← List.drop_drop, hd8, List.drop_left' hb]
  refine ⟨?_, ?_, ?_, ?_, hd12, ?_⟩
  · rw [hW, List.take_left' hm]
  · rw [hd4, List.take_left' ha, hseq']
    exact leDecode_u32ToLe seq hseq
  · rw [hd8, List.take_left' hb, hlen']
    exact leDecode_u32ToLe _ hlen
  · rw [hd12, flatten_map_i16ToLe_length]
    exact Nat.mul_comm 2 samples.length
  · intro s hmem
    exact ⟨i16ToLe_length s, decodeI16_i16ToLe s (hs s hmem).1 (hs s hmem).2⟩

/-- C1 witness: the layout theorem applied to the concrete frame of the
two samples 100 and -100 with sequence number 7. -/
theorem write_pcm_frame_layout_witness :
    (7 < 2 ^ 32 ∧ [(100 : Int), -100].length * 2 < 2 ^ 32 ∧
      ∀ s ∈ [(100 : Int), -100], -32768 ≤ s ∧ s < 32768) ∧
    ((write_pcm_frame [100, -100] 7).take 4 = magicBytes ∧
     leDecode (((write_pcm_frame [100, -100] 7).drop 4).take 4) = 7 ∧
     leDecode (((write_pcm_frame [100, -100] 7).drop 8).take 4)
        = [(100 : Int), -100].length * 2 ∧
     ((write_pcm_frame [100, -100] 7).drop 12).length = [(100 : Int), -100].length * 2 ∧
     (write_pcm_frame [100, -100] 7).drop 12 = ([(100 : Int), -100].map i16ToLe).flatten ∧
     ∀ s ∈ [(100 : Int), -100], (i16ToLe s).length = 2 ∧ decodeI16 (i16ToLe s) = s) :=
  ⟨⟨by decide, by decide, by decide⟩,
   write_pcm_frame_layout [100, -100] 7 (by decide) (by decide) (by decide)⟩

/-- C2 counterexample: the claimed payload bytes are wrong for the second
sample; -100 as little-endian i16 is 9C FF, not 16 FF, so the batch
(100, -100), (200, -200) does not serialize to the claimed byte list. -/
theorem c2_claimed_payload_false :
    ¬ ((write_pcm_frame [100, -100, 200, -200] 0).drop 12
        = [0x64, 0x00, 0x16, 0xFF, 0xC8, 0x00, 0x38, 0xFF]) := by
  decide

/-- C2 amended: the batch of 2 stereo samples (100, -100), (200, -200)
serializes to magic "SELL", the sequence-number bytes, length field 8,
and payload 64 00 9C FF C8 00 38 FF. -/
theorem c2_batch_serialization (seq : Nat) (hseq : seq < 2 ^ 32) :
    write_pcm_frame [100, -100, 200, -200] seq
      = magicBytes ++ u32ToLe seq ++ u32ToLe 8
        ++ [0x64, 0x00, 0x9C, 0xFF, 0xC8, 0x00, 0x38, 0xFF] := by
  have hseq' : seq % 2 ^ 32 = seq := Nat.mod_eq_of_lt hseq
  have h8 : [(100 : Int), -100, 200, -200].length * 2 % 2 ^ 32 = 8 := by decide
  have hp : ([(100 : Int), -100, 200, -200].map i16ToLe).flatten
      = [0x64, 0x00, 0x9C, 0xFF, 0xC8, 0x00, 0x38, 0xFF] := by decide
  rw [write_pcm_frame, h8, hp, hseq']

/-- C2 witness: the amended serialization at sequence number 5. -/
theorem c2_batch_serialization_witness :
    5 < 2 ^ 32 ∧
    write_pcm_frame [100, -100, 200, -200] 5
      = magicBytes ++ u32ToLe 5 ++ u32ToLe 8
        ++ [0x64, 0x00, 0x9C, 0xFF, 0xC8, 0x00, 0x38, 0xFF] :=
  ⟨by decide, c2_batch_serialization 5 (by decide)⟩

/-- C3 counterexample: in the scenario with mic samples 0.5, -0.5, 0.5,
-0.5 and loopback zeros, the left channel is not the claimed
[16383, -16384, 16383, -16384]; Rust's `as i16` truncates toward zero, so
-0.5 x 32767 = -16383.5 converts to -16383, not -16384. -/
theorem c3_claimed_left_channel_false :
    ¬ ((runMix initMixState c3Scenario).map Prod.fst
        = [16383, -16384, 16383, -16384]) := by
  rw [c3_run_eval]
  decide

/-- C3 amended: in the same scenario the four stereo frames written have
left-channel values [16383, -16383, 16383, -16383] and right-channel
values [0, 0, 0, 0] (truncation toward zero of ±16383.5). -/
theorem c3_mixed_frames :
    (runMix initMixState c3Scenario).map Prod.fst = [16383, -16383, 16383, -16383] ∧
    (runMix initMixState c3Scenario).map Prod.snd = [0, 0, 0, 0] := by
  rw [c3_run_eval]
  exact ⟨rfl, rfl⟩

/-- C4: for non-silent buffers in a supported format, the mono value
produced for each frame is the arithmetic mean of that frame's channel
samples — 16-bit samples first normalized by `i16::MAX`, float samples
unscaled.  Buffers are given as lists of frames, each frame holding the
`nch` interleaved channel samples; exact rational arithmetic stands in
for f32 arithmetic, so the mean holds exactly rather than within
tolerance. -/
theorem mono_conversion_is_mean (nch : Nat) (frames16 : List (List Int))
    (frames32 : List (List ℚ)) (hn : 0 < nch)
    (h16 : ∀ f ∈ frames16, f.length = nch) (h32 : ∀ f ∈ frames32, f.length = nch) :
    processBuffer16 nch frames16.flatten
        = frames16.map (fun f => (f.map (fun s => (s : ℚ) / 32767)).sum / (f.length : ℚ)) ∧
    processBuffer32 nch frames32.flatten
        = frames32.map (fun f => f.sum / (f.length : ℚ)) := by
  constructor
  · rw [processBuffer16, chunksR_flatten nch hn frames16 h16]
    exact List.map_congr_left fun f hf => by rw [h16 f hf]
  · rw [processBuffer32, chunksR_flatten nch hn frames32 h32]
    exact List.map_congr_left fun f hf => by rw [h32 f hf]

/-- C4 witness: the mean property applied at channel count 2 to the
one-frame 16-bit buffer [100, -100] and the one-frame float buffer
[0, 0]. -/
theorem mono_conversion_is_mean_witness :
    (0 < 2 ∧ (∀ f ∈ [[(100 : Int), -100]], f.length = 2) ∧
      ∀ f ∈ [[(0 : ℚ), 0]], f.length = 2) ∧
    (processBuffer16 2 [[(100 : Int), -100]].flatten
        = [[(100 : Int), -100]].map
            (fun f => (f.map (fun s => (s : ℚ) / 32767)).sum / (f.length : ℚ)) ∧
     processBuffer32 2 [[(0 : ℚ), 0]].flatten
        = [[(0 : ℚ), 0]].map (fun f => f.sum / (f.length : ℚ))) :=
  ⟨⟨by decide, by decide, by decide⟩,
   mono_conversion_is_mean 2 [[100, -100]] [[0, 0]] (by decide) (by decide) (by decide)⟩

/-- C5: over a session, the sequence numbers carried by the frames
actually emitted to the framed stream are 0, 1, 2, ... reduced modulo
2^32 (one increment per successfully emitted frame, wraparound included),
regardless of where frame-write failures occur; within a wrap period no
sequence number is reused. -/
theorem sequence_numbers_contiguous (ws : List WriteOutcome) :
    (runStream initStream ws).emitted = (List.range (okCount ws)).map wrap32 ∧
    (runStream initStream ws).seq = wrap32 (okCount ws) ∧
    (okCount ws ≤ 2 ^ 32 → (runStream initStream ws).emitted.Nodup) := by
  obtain ⟨h1, h2⟩ := runStream_spec ws initStream (by decide)
  have he : (runStream initStream ws).emitted = (List.range (okCount ws)).map wrap32 := by
    rw [h1]
    simp [initStream]
  refine ⟨he, by rw [h2]; simp [initStream], ?_⟩
  intro hk
  rw [he]
  have hid : (List.range (okCount ws)).map wrap32 = List.range (okCount ws) := by
    have h3 : ∀ i ∈ List.range (okCount ws), wrap32 i = i := fun i hi =>
      Nat.mod_eq_of_lt (lt_of_lt_of_le (List.mem_range.mp hi) hk)
    calc (List.range (okCount ws)).map wrap32
        = (List.range (okCount ws)).map id :=
          List.map_congr_left fun i hi => by rw [h3 i hi]; rfl
    _ = List.range (okCount ws) := List.map_id _
  rw [hid]
  exact List.nodup_range _

/-- C5 witness: a session whose second flush fails emits sequence numbers
0 and 1 with no reuse. -/
theorem sequence_numbers_contiguous_witness :
    okCount [WriteOutcome.ok, .err, .ok] ≤ 2 ^ 32 ∧
    (runStream initStream [WriteOutcome.ok, .err, .ok]).emitted = [0, 1] ∧
    (runStream initStream [WriteOutcome.ok, .err, .ok]).emitted.Nodup := by
  have h := sequence_numbers_contiguous [WriteOutcome.ok, .err, .ok]
  refine ⟨by decide, ?_, h.2.2 (by decide)⟩
  rw [h.1]
  decide

/-- C6: a buffer flagged silent with N frames sends exactly N zero-valued
mono samples into the channel, the same count a non-silent float buffer
of N frames produces. -/
theorem silence_preserves_frame_count (n nch : Nat) (frames : List (List ℚ))
    (hn : 0 < nch) (hlen : frames.length = n) (hf : ∀ f ∈ frames, f.length = nch) :
    (silentEmit n).length = n ∧ (∀ x ∈ silentEmit n, x = 0) ∧
    (processBuffer32 nch frames.flatten).length = n := by
  refine ⟨List.length_replicate n 0, ?_, ?_⟩
  · intro x hx
    exact List.eq_of_mem_replicate hx
  · rw [processBuffer32, chunksR_flatten nch hn frames hf, List.length_map, hlen]

/-- C6 witness: a 2-frame silent buffer against a 2-frame stereo float
buffer. -/
theorem silence_preserves_frame_count_witness :
    (0 < 2 ∧ [[(0 : ℚ), 0], [0, 0]].length = 2 ∧
      ∀ f ∈ [[(0 : ℚ), 0], [0, 0]], f.length = 2) ∧
    ((silentEmit 2).length = 2 ∧ (∀ x ∈ silentEmit 2, x = 0) ∧
     (processBuffer32 2 [[(0 : ℚ), 0], [0, 0]].flatten).length = 2) :=
  ⟨⟨by decide, by decide, by decide⟩,
   silence_preserves_frame_count 2 2 [[0, 0], [0, 0]] (by decide) (by decide) (by decide)⟩

/-- C7: the mixing loop clamps every amplitude to [-1, 1] before scaling
by `i16::MAX`, so the emitted 16-bit sample always lies in
[-32767, 32767] and never overflows or wraps. -/
theorem clamp_before_scale_no_overflow (s : F32) :
    (clampUnit s = F32.nan ∨ ∃ q, clampUnit s = F32.fin q ∧ -1 ≤ q ∧ q ≤ 1) ∧
    -32767 ≤ sampleToI16 s ∧ sampleToI16 s ≤ 32767 :=
  ⟨clampUnit_bounds s, sampleToI16_bounds s⟩

/-- C8: each mixing-loop iteration uses the channel's most recently
delivered sample when a non-blocking read yields nothing, uses the fresh
sample otherwise, stores the value used back as the held value, and the
held values start at zero before any sample has arrived. -/
theorem hold_last_value (st : MixState) (mr lr : Option F32) :
    (mr = none → (mixIter st mr lr).1.lastMic = st.lastMic) ∧
    (∀ v, mr = some v → (mixIter st mr lr).1.lastMic = v) ∧
    (lr = none → (mixIter st mr lr).1.lastLoop = st.lastLoop) ∧
    (∀ v, lr = some v → (mixIter st mr lr).1.lastLoop = v) ∧
    (mixIter st mr lr).2.1 = sampleToI16 (mixIter st mr lr).1.lastMic ∧
    (mixIter st mr lr).2.2 = sampleToI16 (mixIter st mr lr).1.lastLoop ∧
    initMixState.lastMic = F32.fin 0 ∧ initMixState.lastLoop = F32.fin 0 := by
  refine ⟨?_, ?_, ?_, ?_, rfl, rfl, rfl, rfl⟩
  · intro h
    rw [h]
    rfl
  · intro v h
    rw [h]
    rfl
  · intro h
    rw [h]
    rfl
  · intro v h
    rw [h]
    rfl

/-- C8 witness: a held mic value survives an empty mic read while a fresh
loopback value replaces the held one. -/
theorem hold_last_value_witness :
    (mixIter ⟨F32.fin 1, F32.nan⟩ none (some (F32.fin 0))).1.lastMic = F32.fin 1 ∧
    (mixIter ⟨F32.fin 1, F32.nan⟩ none (some (F32.fin 0))).1.lastLoop = F32.fin 0 :=
  ⟨(hold_last_value ⟨F32.fin 1, F32.nan⟩ none (some (F32.fin 0))).1 rfl,
   (hold_last_value ⟨F32.fin 1, F32.nan⟩ none (some (F32.fin 0))).2.2.2.1
      (F32.fin 0) rfl⟩

/-- C9: evaluation of the start/join error flow at the failing input where
the default output endpoint cannot be acquired: `start` nevertheless
returns `Ok` (it returns `Ok` for every environment), the capture thread
finishes with the endpoint error, and the join handling in main produces
no log line for it — contradicting the claim that `start` returns a
recoverable error and that every capture-path error is surfaced with at
least a log line. -/
theorem loopback_error_flow_eval :
    start envNoEndpoint = Except.ok envNoEndpoint ∧
    (∀ env : CaptureEnv, start env = Except.ok env) ∧
    run_capture_loop envNoEndpoint
        = Except.error "Failed to get default audio endpoint" ∧
    joinLogLines (JoinOutcome.finished (run_capture_loop envNoEndpoint)) = [] :=
  ⟨rfl, fun _ => rfl, rfl, rfl⟩

/-- C10: the clamp-and-scale conversion is total on the f32 model
(NaN and infinities included): its result always lies in
[-32767, 32767] — strictly above -32768, so `i16::MIN` is never
produced — and a NaN input converts to 0. -/
theorem conversion_total_range (s : F32) :
    -32767 ≤ sampleToI16 s ∧ sampleToI16 s ≤ 32767 ∧ -32768 < sampleToI16 s ∧
    sampleToI16 F32.nan = 0 := by
  obtain ⟨h1, h2⟩ := sampleToI16_bounds s
  exact ⟨h1, h2, by omega, rfl⟩

end Selly
